import Mathlib

/-!
Verification of the merkle tree overlay engine
(`eth2/utils/merkle_partial/src/merkle_tree_overlay/impls.rs`).

Generalized indices are `u64` in the source (`NodeIndex`); the spec treats
overflow as a caller contract violation and the index space as an unbounded
binary tree, so indices are embedded as `Nat`.

The tree-arithmetic helpers (`crate::tree_arithmetic`) and the constant
`BYTES_PER_CHUNK` live in files of the repository that are not part of the
provided sources; they are modelled from the spec (section 4.1 and the
glossary), and their behaviour is cross-checked by the concrete scenarios
from the in-source test suite.
-/

set_option autoImplicit false

/-- Modelled from the spec: `BYTES_PER_CHUNK`, the fixed 32-byte unit of leaf
storage (glossary: "Chunk: the fixed-size (here, 32-byte) unit of leaf
storage"); the constant is defined outside the provided source files. -/
def BYTES_PER_CHUNK : Nat := 32

/-- Fuel-driven floor of the base-2 logarithm: halve until the argument is at
most 1.  The fuel is instantiated with the argument itself, which bounds the
number of halvings. -/
def log2_fuel : Nat → Nat → Nat
  | 0, _ => 0
  | fuel + 1, p => if p ≤ 1 then 0 else log2_fuel fuel (p / 2) + 1

/-- Modelled from the spec: `log_base_two(p)`, the exponent such that
`2^exponent == p` for a power of two `p` (undefined by contract otherwise; this
model returns the floor of the base-2 logarithm).  The original lives in
`crate::tree_arithmetic`, outside the provided source files. -/
def log_base_two (p : Nat) : Nat := log2_fuel p p

/-- Fuel-driven next power of two: `npot n = 2 * npot (ceil (n / 2))` with
`npot n = 1` for `n ≤ 1`. -/
def npot_fuel : Nat → Nat → Nat
  | 0, _ => 1
  | fuel + 1, n => if n ≤ 1 then 1 else 2 * npot_fuel fuel ((n + 1) / 2)

/-- Modelled from the spec: `next_power_of_two(n)`, the smallest power of two
greater than or equal to `n`, with `next_power_of_two(0) = 1`.  The original
lives in `crate::tree_arithmetic`, outside the provided source files. -/
def next_power_of_two (n : Nat) : Nat := npot_fuel n n

/-- Modelled from the spec: `relative_depth(ancestor_index, index)`, the number
of tree levels separating `index` from `ancestor_index` in the zero-based
complete-binary-tree numbering (root 0, children `2i+1` and `2i+2`, so a node
`i` sits at depth `floor (log2 (i+1))`).  The original lives in
`crate::tree_arithmetic::zeroed`, outside the provided source files. -/
def relative_depth (ancestor index : Nat) : Nat :=
  log_base_two (index + 1) - log_base_two (ancestor + 1)

/-- Modelled from the spec: `root_from_depth(index, depth)`, the ancestor of
`index` exactly `depth` levels above it, walking up with the zero-based parent
rule `parent i = (i - 1) / 2`.  The original lives in
`crate::tree_arithmetic::zeroed`, outside the provided source files. -/
def root_from_depth (index : Nat) : Nat → Nat
  | 0 => index
  | d + 1 => root_from_depth ((index - 1) / 2) d

/-- Modelled from the spec: `general_index_to_subtree(subtree_root, index)`,
re-basing `index` into the local numbering of the subtree rooted at
`subtree_root` (a descendant at relative depth `d` below `subtree_root` with
positional offset `k` has global index `subtree_root * 2^d + ...` and local
index obtained by removing that offset).  The original lives in
`crate::tree_arithmetic::zeroed`, outside the provided source files. -/
def general_index_to_subtree (subtree_root index : Nat) : Nat :=
  index - subtree_root * 2 ^ relative_depth subtree_root index

/-- Descriptor of a scalar value packed into a leaf (`crate::field::Basic`):
`ident` is a name or positional index as text, `index` the generalized index of
the enclosing leaf, `size` the byte width, `offset` the byte offset inside the
32-byte chunk. -/
structure Basic where
  ident : String
  index : Nat
  size : Nat
  offset : Nat
deriving DecidableEq

/-- Root descriptor of a container subtree (`crate::field::Composite`). -/
structure Composite where
  ident : String
  index : Nat
  height : Nat
deriving DecidableEq

/-- Leaf classification (`crate::field::Leaf`): a data leaf holding packed
scalar descriptors, a length leaf, or an intentionally empty padding leaf. -/
inductive Leaf where
  | Basic (descriptors : List Basic)
  | Length (b : Basic)
  | Padding
deriving DecidableEq

/-- Node classification returned by `get_node` (`crate::field::Node`). -/
inductive Node where
  | Composite (c : Composite)
  | Intermediate (index : Nat)
  | Leaf (l : Leaf)
  | Unattached (index : Nat)
deriving DecidableEq

/-- The primitive scalar types for which
`impl_merkle_overlay_for_basic_type!` is invoked (impls.rs lines 40-47). -/
inductive Scalar where
  | bool
  | u8
  | u16
  | u32
  | u64
  | u128
  | u256
  | usize
deriving DecidableEq

/-- The `$bit_size` argument passed to `impl_merkle_overlay_for_basic_type!`
for each scalar (impls.rs lines 40-47).  For `usize` the invocation passes
`std::mem::size_of::<usize>()`, which is 8 on a 64-bit target. -/
def Scalar.bitSizeParam : Scalar → Nat
  | .bool => 8
  | .u8 => 8
  | .u16 => 16
  | .u32 => 32
  | .u64 => 64
  | .u128 => 128
  | .u256 => 256
  | .usize => 8

/-- `std::mem::size_of` of each scalar type on a 64-bit target (used by the
`VariableList` overlay as `item_size`, impls.rs line 119). -/
def Scalar.memSize : Scalar → Nat
  | .bool => 1
  | .u8 => 1
  | .u16 => 2
  | .u32 => 4
  | .u64 => 8
  | .u128 => 16
  | .u256 => 32
  | .usize => 8

/-- The types implementing `MerkleTreeOverlay` in impls.rs: the primitive
scalars and `ssz_types::VariableList<T, N>` (element type `T`, capacity `N`
given by the `typenum` parameter). -/
inductive Ty where
  | scalar (s : Scalar)
  | vlist (elem : Ty) (n : Nat)
deriving DecidableEq

/-- `std::mem::size_of::<T>()` on a 64-bit target.  A `VariableList` is a
`Vec` wrapper of memory size 24; `get_node` only reads this value in its
packed-scalar branch, which a list element type never reaches because a list's
root node is `Composite`. -/
def Ty.memSize : Ty → Nat
  | .scalar s => s.memSize
  | .vlist _ _ => 24

/-- `height()` (impls.rs lines 13-15 for scalars, 66-72 for `VariableList`). -/
def Ty.height : Ty → Nat
  | .scalar _ => 0
  | .vlist _ n => log_base_two (next_power_of_two n) + 1

/-- `first_leaf()` (impls.rs lines 17-19 for scalars, 74-76 for
`VariableList`, where it is `(1 << height) - 1`). -/
def Ty.first_leaf : Ty → Nat
  | .scalar _ => 0
  | .vlist elem n => 2 ^ (Ty.vlist elem n).height - 1

/-- `last_leaf()` (impls.rs lines 21-23 for scalars, 78-85 for `VariableList`,
where it is `(1 << height) + (1 << (height - 1)) - 2`). -/
def Ty.last_leaf : Ty → Nat
  | .scalar _ => 0
  | .vlist elem n => 2 ^ (Ty.vlist elem n).height + 2 ^ ((Ty.vlist elem n).height - 1) - 2

/-- `replace_index` (impls.rs lines 162-188): a copy of `node` with every
index field changed to `index`. -/
def replace_index (node : Node) (index : Nat) : Node :=
  match node with
  | Node.Composite c => Node.Composite ⟨c.ident, index, c.height⟩
  | Node.Leaf (Leaf.Basic b) =>
      Node.Leaf (Leaf.Basic (b.map fun x => ⟨x.ident, index, x.size, x.offset⟩))
  | Node.Leaf (Leaf.Length b) => Node.Leaf (Leaf.Length ⟨b.ident, index, 32, 0⟩)
  | Node.Leaf Leaf.Padding => Node.Leaf Leaf.Padding
  | Node.Unattached _ => Node.Unattached index
  | Node.Intermediate _ => Node.Intermediate index

/-- `get_node` (impls.rs lines 25-35 for scalars, 87-158 for `VariableList`).
The Rust scalar impl returns a descriptor of size `$bit_size / 32`; the
`unreachable!` arm of the `VariableList` impl (line 142) is embedded as
`none`, every ordinary return as `some`. -/
def Ty.get_node : Ty → Nat → Option Node
  | .scalar s, index =>
      if index = 0 then
        some (Node.Leaf (Leaf.Basic [⟨"", index, s.bitSizeParam / 32, 0⟩]))
      else
        some (Node.Unattached index)
  | .vlist elem n, index =>
      if index = 0 then
        some (Node.Composite ⟨"", 0, (Ty.vlist elem n).height⟩)
      else if index = 1 then
        some (Node.Intermediate index)
      else if index = 2 then
        some (Node.Leaf (Leaf.Length ⟨"len", index, 32, 0⟩))
      else if 3 ≤ index ∧ index ≤ 2 ^ (Ty.vlist elem n).height - 2 then
        some (Node.Intermediate index)
      else if (Ty.vlist elem n).first_leaf ≤ index ∧ index ≤ (Ty.vlist elem n).last_leaf then
        match Ty.get_node elem 0 with
        | some (Node.Leaf (Leaf.Basic _)) =>
            some (Node.Leaf (Leaf.Basic
              ((List.range (BYTES_PER_CHUNK / elem.memSize)).map fun i =>
                ⟨toString ((index - (Ty.vlist elem n).first_leaf)
                    * (BYTES_PER_CHUNK / elem.memSize) + i),
                  index, elem.memSize, i * elem.memSize⟩)))
        | some (Node.Composite c) =>
            some (Node.Composite ⟨toString (index - (Ty.vlist elem n).first_leaf), index, c.height⟩)
        | _ => none
      else
        if (Ty.vlist elem n).first_leaf
              ≤ root_from_depth index (relative_depth (Ty.vlist elem n).first_leaf index)
            ∧ root_from_depth index (relative_depth (Ty.vlist elem n).first_leaf index)
              ≤ (Ty.vlist elem n).last_leaf then
          (Ty.get_node elem
              (general_index_to_subtree
                (root_from_depth index (relative_depth (Ty.vlist elem n).first_leaf index))
                index)).map
            (fun nd => replace_index nd index)
        else
          some (Node.Unattached index)

/-! ## Helper lemmas on the modelled arithmetic -/

/-- `npot_fuel` always returns a power of two. -/
theorem npot_fuel_is_pow (fuel : Nat) : ∀ n : Nat, ∃ d, npot_fuel fuel n = 2 ^ d := by
  induction fuel with
  | zero => exact fun n => ⟨0, rfl⟩
  | succ f ih =>
      intro n
      by_cases h : n ≤ 1
      · exact ⟨0, by simp [npot_fuel, h]⟩
      · obtain ⟨d, hd⟩ := ih ((n + 1) / 2)
        exact ⟨d + 1, by simp [npot_fuel, h, hd, Nat.pow_succ, Nat.mul_comm]⟩

/-- `next_power_of_two` always returns a power of two. -/
theorem next_power_of_two_is_pow (n : Nat) : ∃ d, next_power_of_two n = 2 ^ d :=
  npot_fuel_is_pow n n

/-- With enough fuel, `log2_fuel` inverts powers of two. -/
theorem log2_fuel_two_pow (d : Nat) : ∀ fuel : Nat, 2 ^ d ≤ fuel → log2_fuel fuel (2 ^ d) = d := by
  induction d with
  | zero =>
      intro fuel hf
      cases fuel with
      | zero => exact absurd hf (by decide)
      | succ f => simp [log2_fuel]
  | succ d ih =>
      intro fuel hf
      have h1 : 1 ≤ 2 ^ d := Nat.one_le_two_pow
      have hs : 2 ^ (d + 1) = 2 ^ d * 2 := Nat.pow_succ 2 d
      cases fuel with
      | zero => omega
      | succ f =>
          have hgt : ¬ 2 ^ (d + 1) ≤ 1 := by omega
          have hdiv : 2 ^ (d + 1) / 2 = 2 ^ d := by
            rw [hs, Nat.mul_div_cancel _ (by norm_num)]
          simp only [log2_fuel, if_neg hgt, hdiv]
          rw [ih f (by omega)]

/-- `log_base_two` inverts powers of two, as the spec requires. -/
theorem log_base_two_two_pow (d : Nat) : log_base_two (2 ^ d) = d :=
  log2_fuel_two_pow d (2 ^ d) (Nat.le_refl _)

/-- The height of a variable-length container is `d + 1` where
`next_power_of_two n = 2 ^ d`. -/
theorem vlist_height_eq (elem : Ty) (n : Nat) :
    ∃ d, next_power_of_two n = 2 ^ d ∧ (Ty.vlist elem n).height = d + 1 := by
  obtain ⟨d, hd⟩ := next_power_of_two_is_pow n
  refine ⟨d, hd, ?_⟩
  simp [Ty.height, hd, log_base_two_two_pow]

/-- A variable-length container has height at least 1. -/
theorem vlist_height_pos (elem : Ty) (n : Nat) : 1 ≤ (Ty.vlist elem n).height := by
  simp only [Ty.height]
  omega

/-! ## Claims about the primitive scalar overlays -/

/-- C1 (code evaluation at the failing input): the scalar overlay stores
`bit_size / 32` in the descriptor's `size` field, so `U256::get_node(0)`
reports size 8 and `bool::get_node(0)` reports size 0, while the claim (and
the byte widths used everywhere else, e.g. `std::mem::size_of` in the
`VariableList` overlay) require `bit_width / 8`, i.e. 32 and 1. -/
theorem basic_scalar_size_bug :
    Ty.get_node (Ty.scalar Scalar.u256) 0
        = some (Node.Leaf (Leaf.Basic [⟨"", 0, 8, 0⟩])) ∧
    Ty.get_node (Ty.scalar Scalar.bool) 0
        = some (Node.Leaf (Leaf.Basic [⟨"", 0, 0, 0⟩])) ∧
    (8 : Nat) ≠ 256 / 8 ∧ (0 : Nat) ≠ 8 / 8 := by
  decide

/-- C2: every primitive scalar type has height 0, first and last leaf 0, and
classifies every nonzero index as `Unattached`. -/
theorem basic_scalar_overlay (s : Scalar) (k : Nat) (hk : k ≠ 0) :
    Ty.height (Ty.scalar s) = 0 ∧
    Ty.first_leaf (Ty.scalar s) = 0 ∧
    Ty.last_leaf (Ty.scalar s) = 0 ∧
    Ty.get_node (Ty.scalar s) k = some (Node.Unattached k) := by
  refine ⟨rfl, rfl, rfl, ?_⟩
  simp only [Ty.get_node]
  rw [if_neg hk]

theorem basic_scalar_overlay_w :
    Ty.height (Ty.scalar Scalar.u64) = 0 ∧
    Ty.first_leaf (Ty.scalar Scalar.u64) = 0 ∧
    Ty.last_leaf (Ty.scalar Scalar.u64) = 0 ∧
    Ty.get_node (Ty.scalar Scalar.u64) 5 = some (Node.Unattached 5) :=
  basic_scalar_overlay Scalar.u64 5 (by decide)

/-! ## Claims about the variable-length container overlay -/

/-- C3: for a variable-length container of capacity `n`, the height is
`log_base_two (next_power_of_two n) + 1`, the first leaf is `2^height - 1`,
and the last leaf is `2^height + 2^(height-1) - 2`. -/
theorem vlist_shape (elem : Ty) (n : Nat) :
    (Ty.vlist elem n).height = log_base_two (next_power_of_two n) + 1 ∧
    (Ty.vlist elem n).first_leaf = 2 ^ (Ty.vlist elem n).height - 1 ∧
    (Ty.vlist elem n).last_leaf
      = 2 ^ (Ty.vlist elem n).height + 2 ^ ((Ty.vlist elem n).height - 1) - 2 :=
  ⟨rfl, rfl, rfl⟩

/-- C5: the data leaf range of a variable-length container of capacity `n`
whose element occupies one full 32-byte chunk spans exactly
`next_power_of_two n` indices. -/
theorem vlist_leaf_count (elem : Ty) (n : Nat) (_hfull : elem.memSize = BYTES_PER_CHUNK) :
    (Ty.vlist elem n).last_leaf - (Ty.vlist elem n).first_leaf + 1 = next_power_of_two n := by
  obtain ⟨d, hd, hh⟩ := vlist_height_eq elem n
  have h1 : 1 ≤ 2 ^ d := Nat.one_le_two_pow
  have hs : 2 ^ (d + 1) = 2 ^ d * 2 := Nat.pow_succ 2 d
  simp only [Ty.last_leaf, Ty.first_leaf, hh, hd, Nat.add_sub_cancel]
  omega

theorem vlist_leaf_count_w :
    (Ty.vlist (Ty.scalar Scalar.u256) 8).last_leaf
        - (Ty.vlist (Ty.scalar Scalar.u256) 8).first_leaf + 1 = next_power_of_two 8 :=
  vlist_leaf_count (Ty.scalar Scalar.u256) 8 (by decide)

/-- C8: concrete scenario for a container of capacity 8 holding 256-bit
scalars: height 4, leaves 15 through 22, packed descriptors "0" at 15 and "7"
at 22, and index 23 unattached. -/
theorem vlist_u256_cap8_scenario :
    (Ty.vlist (Ty.scalar Scalar.u256) 8).height = 4 ∧
    (Ty.vlist (Ty.scalar Scalar.u256) 8).first_leaf = 15 ∧
    (Ty.vlist (Ty.scalar Scalar.u256) 8).last_leaf = 22 ∧
    Ty.get_node (Ty.vlist (Ty.scalar Scalar.u256) 8) 15
        = some (Node.Leaf (Leaf.Basic [⟨"0", 15, 32, 0⟩])) ∧
    Ty.get_node (Ty.vlist (Ty.scalar Scalar.u256) 8) 22
        = some (Node.Leaf (Leaf.Basic [⟨"7", 22, 32, 0⟩])) ∧
    Ty.get_node (Ty.vlist (Ty.scalar Scalar.u256) 8) 23
        = some (Node.Unattached 23) := by
  decide

/-- C9: concrete scenario for a container of capacity 4 holding containers of
capacity 2 holding containers of capacity 2 holding 256-bit scalars: index 32
is a re-anchored composite of height 2, index 176 a packed descriptor "1", and
indices 45 and 177 are unattached. -/
theorem nested_vlist_scenario :
    Ty.get_node (Ty.vlist (Ty.vlist (Ty.vlist (Ty.scalar Scalar.u256) 2) 2) 4) 32
        = some (Node.Composite ⟨"1", 32, 2⟩) ∧
    Ty.get_node (Ty.vlist (Ty.vlist (Ty.vlist (Ty.scalar Scalar.u256) 2) 2) 4) 176
        = some (Node.Leaf (Leaf.Basic [⟨"1", 176, 32, 0⟩])) ∧
    Ty.get_node (Ty.vlist (Ty.vlist (Ty.vlist (Ty.scalar Scalar.u256) 2) 2) 4) 45
        = some (Node.Unattached 45) ∧
    Ty.get_node (Ty.vlist (Ty.vlist (Ty.vlist (Ty.scalar Scalar.u256) 2) 2) 4) 177
        = some (Node.Unattached 177) := by
  decide

/-- C4: classification of the small indices of a variable-length container:
index 0 is the container root, index 1 the data-subtree root, index 2 the
length leaf, and every index from 3 through `2^height - 2` an intermediate
node. -/
theorem vlist_low_index_nodes (elem : Ty) (n index : Nat) :
    Ty.get_node (Ty.vlist elem n) 0
        = some (Node.Composite ⟨"", 0, (Ty.vlist elem n).height⟩) ∧
    Ty.get_node (Ty.vlist elem n) 1 = some (Node.Intermediate 1) ∧
    Ty.get_node (Ty.vlist elem n) 2 = some (Node.Leaf (Leaf.Length ⟨"len", 2, 32, 0⟩)) ∧
    (3 ≤ index → index ≤ 2 ^ (Ty.vlist elem n).height - 2 →
      Ty.get_node (Ty.vlist elem n) index = some (Node.Intermediate index)) := by
  refine ⟨rfl, rfl, rfl, fun h3 hle => ?_⟩
  have h0 : index ≠ 0 := by omega
  have h1 : index ≠ 1 := by omega
  have h2 : index ≠ 2 := by omega
  simp only [Ty.get_node]
  rw [if_neg h0, if_neg h1, if_neg h2, if_pos ⟨h3, hle⟩]

theorem vlist_low_index_nodes_w :
    Ty.get_node (Ty.vlist (Ty.scalar Scalar.u256) 8) 0
        = some (Node.Composite ⟨"", 0, (Ty.vlist (Ty.scalar Scalar.u256) 8).height⟩) ∧
    Ty.get_node (Ty.vlist (Ty.scalar Scalar.u256) 8) 1 = some (Node.Intermediate 1) ∧
    Ty.get_node (Ty.vlist (Ty.scalar Scalar.u256) 8) 2
        = some (Node.Leaf (Leaf.Length ⟨"len", 2, 32, 0⟩)) ∧
    Ty.get_node (Ty.vlist (Ty.scalar Scalar.u256) 8) 5 = some (Node.Intermediate 5) :=
  ⟨(vlist_low_index_nodes (Ty.scalar Scalar.u256) 8 5).1,
   (vlist_low_index_nodes (Ty.scalar Scalar.u256) 8 5).2.1,
   (vlist_low_index_nodes (Ty.scalar Scalar.u256) 8 5).2.2.1,
   (vlist_low_index_nodes (Ty.scalar Scalar.u256) 8 5).2.2.2 (by decide) (by decide)⟩

/-- C6 counterexample: for a container of capacity 1, the leaf range is the
single index 1, yet `get_node(1)` is claimed first by the `index == 1` branch
and returns `Intermediate(1)`, not a packed `Leaf::Basic`. -/
theorem vlist_leaf_range_cap_one_cx :
    (Ty.vlist (Ty.scalar Scalar.u256) 1).first_leaf = 1 ∧
    (Ty.vlist (Ty.scalar Scalar.u256) 1).last_leaf = 1 ∧
    Ty.get_node (Ty.vlist (Ty.scalar Scalar.u256) 1) 1 = some (Node.Intermediate 1) := by
  decide

/-- C6 (amended with `2 ≤ height`, i.e. capacity at least 2): for a container
whose element overlay roots at a packed basic leaf, every index in the data
leaf range yields a `Leaf::Basic` of `BYTES_PER_CHUNK / item_size` descriptors
whose idents are the flattened element positions, whose index fields are the
queried index, and whose sizes and offsets follow the element byte width. -/
theorem vlist_basic_leaf_range (elem : Ty) (n index : Nat)
    (hh : 2 ≤ (Ty.vlist elem n).height)
    (hbasic : ∃ l, Ty.get_node elem 0 = some (Node.Leaf (Leaf.Basic l)))
    (hlo : (Ty.vlist elem n).first_leaf ≤ index)
    (hhi : index ≤ (Ty.vlist elem n).last_leaf) :
    Ty.get_node (Ty.vlist elem n) index
      = some (Node.Leaf (Leaf.Basic
          ((List.range (BYTES_PER_CHUNK / elem.memSize)).map fun i =>
            ⟨toString ((index - (Ty.vlist elem n).first_leaf)
                * (BYTES_PER_CHUNK / elem.memSize) + i),
              index, elem.memSize, i * elem.memSize⟩))) := by
  obtain ⟨l, hl⟩ := hbasic
  have hp : 4 ≤ 2 ^ (Ty.vlist elem n).height := by
    calc (4 : Nat) = 2 ^ 2 := by norm_num
    _ ≤ 2 ^ (Ty.vlist elem n).height := Nat.pow_le_pow_right (by norm_num) hh
  have hlo' : 2 ^ (Ty.vlist elem n).height - 1 ≤ index := hlo
  have h0 : index ≠ 0 := by omega
  have h1 : index ≠ 1 := by omega
  have h2 : index ≠ 2 := by omega
  have hint : ¬ (3 ≤ index ∧ index ≤ 2 ^ (Ty.vlist elem n).height - 2) := by omega
  simp only [Ty.get_node]
  rw [if_neg h0, if_neg h1, if_neg h2, if_neg hint, if_pos ⟨hlo, hhi⟩, hl]

theorem vlist_basic_leaf_range_w :
    Ty.get_node (Ty.vlist (Ty.scalar Scalar.u64) 4) 8
      = some (Node.Leaf (Leaf.Basic
          ((List.range (BYTES_PER_CHUNK / (Ty.scalar Scalar.u64).memSize)).map fun i =>
            ⟨toString ((8 - (Ty.vlist (Ty.scalar Scalar.u64) 4).first_leaf)
                * (BYTES_PER_CHUNK / (Ty.scalar Scalar.u64).memSize) + i),
              8, (Ty.scalar Scalar.u64).memSize, i * (Ty.scalar Scalar.u64).memSize⟩))) :=
  vlist_basic_leaf_range (Ty.scalar Scalar.u64) 4 8 (by decide)
    ⟨[⟨"", 0, 2, 0⟩], by decide⟩ (by decide) (by decide)

/-- C7 counterexample: the delegation rule does not hold for every index whose
computed subtree root lies in the leaf range — for the capacity-8 container of
256-bit scalars, index 15 is its own subtree root and lies in `[15, 22]`, yet
`get_node(15)` takes the earlier data-leaf branch, which rewrites the ident,
instead of returning the re-indexed delegated node.  Likewise the `Unattached`
rule does not hold for every index whose subtree root is outside the range:
for capacity 1, index 2 has subtree root 2 outside `[1, 1]` but is the length
leaf, not unattached. -/
theorem vlist_delegation_precedence_cx :
    root_from_depth 15 (relative_depth (Ty.vlist (Ty.scalar Scalar.u256) 8).first_leaf 15)
        = 15 ∧
    (Ty.vlist (Ty.scalar Scalar.u256) 8).first_leaf ≤ 15 ∧
    (15 : Nat) ≤ (Ty.vlist (Ty.scalar Scalar.u256) 8).last_leaf ∧
    Ty.get_node (Ty.vlist (Ty.scalar Scalar.u256) 8) 15
      ≠ (Ty.get_node (Ty.scalar Scalar.u256)
          (general_index_to_subtree 15 15)).map (fun nd => replace_index nd 15) ∧
    root_from_depth 2 (relative_depth (Ty.vlist (Ty.scalar Scalar.u256) 1).first_leaf 2)
        = 2 ∧
    ¬ ((Ty.vlist (Ty.scalar Scalar.u256) 1).first_leaf ≤ 2 ∧
        (2 : Nat) ≤ (Ty.vlist (Ty.scalar Scalar.u256) 1).last_leaf) ∧
    Ty.get_node (Ty.vlist (Ty.scalar Scalar.u256) 1) 2 ≠ some (Node.Unattached 2) := by
  decide

/-- C7 (amended to the indices that reach the delegation branch: indices
beyond `last_leaf()` and other than 2): if the subtree root computed from the
relative depth below `first_leaf()` lies in the data leaf range, `get_node`
delegates to the element overlay on the re-based index and rewrites every
index field of the result to the original index; otherwise it returns
`Unattached`. -/
theorem vlist_subtree_delegation (elem : Ty) (n index : Nat)
    (hgt : (Ty.vlist elem n).last_leaf < index) (hne : index ≠ 2) :
    ((Ty.vlist elem n).first_leaf
          ≤ root_from_depth index (relative_depth (Ty.vlist elem n).first_leaf index)
        ∧ root_from_depth index (relative_depth (Ty.vlist elem n).first_leaf index)
          ≤ (Ty.vlist elem n).last_leaf →
      Ty.get_node (Ty.vlist elem n) index
        = (Ty.get_node elem
            (general_index_to_subtree
              (root_from_depth index (relative_depth (Ty.vlist elem n).first_leaf index))
              index)).map (fun nd => replace_index nd index)) ∧
    (¬ ((Ty.vlist elem n).first_leaf
          ≤ root_from_depth index (relative_depth (Ty.vlist elem n).first_leaf index)
        ∧ root_from_depth index (relative_depth (Ty.vlist elem n).first_leaf index)
          ≤ (Ty.vlist elem n).last_leaf) →
      Ty.get_node (Ty.vlist elem n) index = some (Node.Unattached index)) := by
  have hh1 : 1 ≤ (Ty.vlist elem n).height := vlist_height_pos elem n
  have hp2 : 2 ≤ 2 ^ (Ty.vlist elem n).height := by
    calc (2 : Nat) = 2 ^ 1 := by norm_num
    _ ≤ 2 ^ (Ty.vlist elem n).height := Nat.pow_le_pow_right (by norm_num) hh1
  have hp1 : 1 ≤ 2 ^ ((Ty.vlist elem n).height - 1) := Nat.one_le_two_pow
  have hll : 2 ^ (Ty.vlist elem n).height + 2 ^ ((Ty.vlist elem n).height - 1) - 2 < index :=
    hgt
  have h0 : index ≠ 0 := by omega
  have h1 : index ≠ 1 := by omega
  have hint : ¬ (3 ≤ index ∧ index ≤ 2 ^ (Ty.vlist elem n).height - 2) := by omega
  have hleaf :
      ¬ ((Ty.vlist elem n).first_leaf ≤ index ∧ index ≤ (Ty.vlist elem n).last_leaf) :=
    fun hc => absurd hc.2 (Nat.not_le.mpr hgt)
  constructor
  · intro hc
    simp only [Ty.get_node]
    rw [if_neg h0, if_neg h1, if_neg hne, if_neg hint, if_neg hleaf, if_pos hc]
  · intro hc
    simp only [Ty.get_node]
    rw [if_neg h0, if_neg h1, if_neg hne, if_neg hint, if_neg hleaf, if_neg hc]

theorem vlist_subtree_delegation_w :
    Ty.get_node (Ty.vlist (Ty.scalar Scalar.u256) 8) 23 = some (Node.Unattached 23) :=
  (vlist_subtree_delegation (Ty.scalar Scalar.u256) 8 23 (by decide) (by decide)).2
    (by decide)

/-- The root node of every overlay in the universe is either a packed basic
leaf or a composite, i.e. the element contract of the container overlay is
satisfied by every element type. -/
theorem get_node_zero_shape (t : Ty) :
    (∃ l, Ty.get_node t 0 = some (Node.Leaf (Leaf.Basic l))) ∨
    (∃ c, Ty.get_node t 0 = some (Node.Composite c)) := by
  cases t with
  | scalar s => exact Or.inl ⟨_, rfl⟩
  | vlist elem n => exact Or.inr ⟨_, rfl⟩

/-- `get_node` never reaches the embedded abort (`none`). -/
theorem get_node_isSome (t : Ty) : ∀ index : Nat, (Ty.get_node t index).isSome = true := by
  induction t with
  | scalar s =>
      intro index
      simp only [Ty.get_node]
      split <;> rfl
  | vlist elem n ih =>
      intro index
      simp only [Ty.get_node]
      split
      · rfl
      · split
        · rfl
        · split
          · rfl
          · split
            · rfl
            · split
              · rcases get_node_zero_shape elem with ⟨l, hl⟩ | ⟨c, hc⟩
                · rw [hl]
                  rfl
                · rw [hc]
                  rfl
              · split
                · obtain ⟨nd, hnd⟩ := Option.isSome_iff_exists.mp (ih _)
                  rw [hnd]
                  rfl
                · rfl

/-- C10: the element contract (every overlay's `get_node(0)` resolves to a
packed basic leaf or a composite) holds throughout the universe of overlay
types, and under it `get_node` is total — every generalized index receives a
well-defined classification and the abort arm (embedded as `none`) is
unreachable. -/
theorem get_node_total (t : Ty) (index : Nat) :
    ((∃ l, Ty.get_node t 0 = some (Node.Leaf (Leaf.Basic l))) ∨
      (∃ c, Ty.get_node t 0 = some (Node.Composite c))) ∧
    (Ty.get_node t index).isSome = true :=
  ⟨get_node_zero_shape t, get_node_isSome t index⟩
